import Mathlib

/-!
Verification development for the Ripay serverless backend.

The JavaScript source is embedded shallowly: pure functions become Lean
functions over `String` / `List Char` / `Int`; database-touching handlers
become pure functions over explicit row lists; external library primitives
(HMAC-SHA256, base64url/JSON serialization, calendar month arithmetic) are
taken as function parameters, since their code is not part of this
repository.  Epoch-millisecond timestamps are modelled as `Int`.
-/

/-! ## ASCII string helpers (JS `toLowerCase` / `toUpperCase` / `trim`) -/

def asciiLowerChar (c : Char) : Char :=
  if 'A' ≤ c ∧ c ≤ 'Z' then Char.ofNat (c.toNat + 32) else c

def asciiUpperChar (c : Char) : Char :=
  if 'a' ≤ c ∧ c ≤ 'z' then Char.ofNat (c.toNat - 32) else c

def asciiLower (s : String) : String := String.mk (s.data.map asciiLowerChar)

def asciiUpper (s : String) : String := String.mk (s.data.map asciiUpperChar)

def isJsWhitespace (c : Char) : Bool :=
  c = ' ' ∨ c = '\t' ∨ c = '\n' ∨ c = '\r'

def trimChars (l : List Char) : List Char :=
  ((l.dropWhile isJsWhitespace).reverse.dropWhile isJsWhitespace).reverse

def trimStr (s : String) : String := String.mk (trimChars s.data)

/-- Embedding of `normalizeEmail`: JS `email.trim().toLowerCase()` (empty for non-strings). -/
def normalizeEmail (s : String) : String := asciiLower (trimStr s)

/-- JS `hay.includes(need)`: substring containment. -/
def containsSub (hay need : List Char) : Bool :=
  match hay with
  | [] => need.isEmpty
  | _ :: t => need.isPrefixOf hay || containsSub t need

/-- JS `str.split(sep)` for a one-character separator. -/
def splitOnChar (sep : Char) : List Char → List (List Char)
  | [] => [[]]
  | c :: rest =>
    if c = sep then [] :: splitOnChar sep rest
    else
      match splitOnChar sep rest with
      | [] => [[c]]
      | h :: t => (c :: h) :: t

/-! ## Decimal digit rendering (JS `String(n)` and `padStart`) -/

def digitChar (d : Nat) : Char := Char.ofNat (48 + d)

/-- Fuel-driven base-10 digit list (most significant first); faithful to JS
`String(n)` whenever `n < fuel`. -/
def natDigits : Nat → Nat → List Nat
  | 0, _ => []
  | fuel + 1, n => if n < 10 then [n] else natDigits fuel (n / 10) ++ [n % 10]

def decDigits (n : Nat) : List Nat := natDigits (n + 1) n

def decReprChars (n : Nat) : List Char := (decDigits n).map digitChar

def padLeft (x : α) (k : Nat) (l : List α) : List α :=
  List.replicate (k - l.length) x ++ l

def digitsToNat (l : List Nat) : Nat := l.foldl (fun a d => a * 10 + d) 0

/-! ## Plan catalog (`_plans.js`, bundled in `src/api/referrals.js`) -/

structure PlanFeatures where
  tier : String
  label : String
  dailyOrderLimit : Option Nat
  weeklyOrderLimit : Option Nat
  retentionHours : Nat
  seatLimit : Nat
  orderEmailNotifications : Bool
deriving Repr, DecidableEq

def planFeaturesFree : PlanFeatures :=
  { tier := "free", label := "Free", dailyOrderLimit := some 2,
    weeklyOrderLimit := some 10, retentionHours := 12, seatLimit := 1,
    orderEmailNotifications := false }

def planFeaturesPersonal : PlanFeatures :=
  { tier := "personal", label := "Personal", dailyOrderLimit := none,
    weeklyOrderLimit := none, retentionHours := 24 * 7, seatLimit := 1,
    orderEmailNotifications := true }

def planFeaturesBusiness : PlanFeatures :=
  { tier := "business", label := "Business", dailyOrderLimit := none,
    weeklyOrderLimit := none, retentionHours := 24 * 60, seatLimit := 3,
    orderEmailNotifications := true }

/-- Embedding of `getPlanFeatures(tier)`: object lookup with `free` fallback. -/
def getPlanFeatures (tier : String) : PlanFeatures :=
  if tier = "free" then planFeaturesFree
  else if tier = "personal" then planFeaturesPersonal
  else if tier = "business" then planFeaturesBusiness
  else planFeaturesFree

/-- Embedding of `normalizePlan(plan)`: `String(plan || "").trim().toLowerCase()`. -/
def normalizePlan (plan : String) : String := asciiLower (trimStr plan)

/-- Embedding of `getTierRank(tier)`: business=3, personal=2, anything else 1. -/
def getTierRank (tier : String) : Nat :=
  if tier = "business" then 3
  else if tier = "personal" then 2
  else 1

/-- Embedding of `getTierFromPlan(plan)` from `_plans.js`. -/
def getTierFromPlan (plan : String) : String :=
  let normalized := normalizePlan plan
  if normalized = "" then "free"
  else if containsSub normalized.data "business".data then "business"
  else if containsSub normalized.data "personal".data ∨ normalized = "monthly"
      ∨ normalized = "annual" ∨ containsSub normalized.data "referral".data then "personal"
  else "free"

example : getTierFromPlan "business_annual" = "business" := by decide
example : getTierFromPlan "personal_referral_bonus" = "personal" := by decide
example : getTierFromPlan "" = "free" := by decide
example : getTierFromPlan " monthly " = "personal" := by decide
example : normalizeEmail "  A@B.cOm " = "a@b.com" := by decide
example : splitOnChar '.' "ab.cd".data = ["ab".data, "cd".data] := by decide
example : splitOnChar '.' "a..b".data = ["a".data, [], "b".data] := by decide
example : decReprChars 6070 = "6070".data := by decide
example : padLeft '0' 6 (decReprChars 42) = "000042".data := by decide

/-! ## Subscription rows and the winning-subscription reduction
(`buildPlanStateForUser` in the subscriptions handler) -/

structure Subscription where
  id : Nat
  userId : Nat
  plan : String
  status : String
  gateway : String
  gatewaySubscriptionId : Option String
  startedAt : Int
  expiresAt : Int
  nextBillingAt : Option Int
deriving Repr, DecidableEq

/-- One step of the winner loop body: higher tier rank wins; on equal rank a
strictly later `expiresAt` wins; otherwise the accumulator is kept. -/
def winnerStep (cur next : Subscription) : Subscription :=
  if getTierRank (getTierFromPlan next.plan) > getTierRank (getTierFromPlan cur.plan) then next
  else if getTierRank (getTierFromPlan next.plan) = getTierRank (getTierFromPlan cur.plan)
      ∧ cur.expiresAt < next.expiresAt then next
  else cur

/-- The `selectedSubscription` loop of `buildPlanStateForUser`: `null`
accumulator, first row seen becomes the accumulator. -/
def selectWinner (subs : List Subscription) : Option Subscription :=
  subs.foldl
    (fun acc next =>
      match acc with
      | none => some next
      | some cur => some (winnerStep cur next))
    none

/-! ## PayPal status mapping and plan input parsing (subscriptions handler) -/

/-- Embedding of `mapPayPalStatusToLocal(paypalStatus)`. The JS falsy check on the
uppercased string (`status ? status.toLowerCase() : "pending"`) is the final
branch. -/
def mapPayPalStatusToLocal (paypalStatus : String) : String :=
  let status := asciiUpper paypalStatus
  if status = "ACTIVE" then "active"
  else if status = "APPROVAL_PENDING" then "pending"
  else if status = "SUSPENDED" then "suspended"
  else if status = "CANCELLED" ∨ status = "EXPIRED" then "canceled"
  else if status = "" then "pending"
  else asciiLower status

/-- Embedding of `normalizeBillingCycle(input)`; an absent field is modelled as `""`
(JS `input || "monthly"`). -/
def normalizeBillingCycle (input : String) : String :=
  let value := asciiLower (trimStr (if input = "" then "monthly" else input))
  if value = "annual" then "annual" else "monthly"

/-- Embedding of `normalizeTier(input)`; an absent field is modelled as `""`. -/
def normalizeTier (input : String) : String :=
  let value := asciiLower (trimStr (if input = "" then "personal" else input))
  if value = "business" then "business"
  else if value = "free" then "free"
  else "personal"

/-- First two components of JS `plan.split("_")` destructuring; the branch is
only taken when `plan` contains `'_'`. -/
def splitPlanParts (plan : String) : String × String :=
  match splitOnChar '_' plan.data with
  | [] => ("", "")
  | [a] => (String.mk a, "")
  | a :: b :: _ => (String.mk a, String.mk b)

/-- Embedding of `parsePlanInput(planRaw, tierRaw, billingCycleRaw)`; returns
`(tier, billingCycle)`. -/
def parsePlanInput (planRaw tierRaw billingCycleRaw : String) : String × String :=
  let explicitTier := normalizeTier tierRaw
  let explicitBilling := normalizeBillingCycle billingCycleRaw
  let plan := asciiLower (trimStr planRaw)
  if plan = "monthly" ∨ plan = "annual" then
    ((if explicitTier = "free" then "personal" else explicitTier), plan)
  else if plan.data.contains '_' then
    let parts := splitPlanParts plan
    (normalizeTier parts.1, normalizeBillingCycle parts.2)
  else if plan = "free" ∨ plan = "personal" ∨ plan = "business" then
    (normalizeTier plan, explicitBilling)
  else
    (explicitTier, explicitBilling)

/-- The upsert's `status: localStatus === "pending" ? "active" : localStatus`. -/
def promoteStatus (localStatus : String) : String :=
  if localStatus = "pending" then "active" else localStatus

/-- Row filter of the `findMany`/`updateMany` pair inside
`handleActivatePayPal`'s transaction.  Prisma's `{ not: value }` on the
nullable `gatewaySubscriptionId` column compiles to SQL `<>`, which does not
match NULL rows, so only rows carrying some other gateway id are selected. -/
def otherActiveFilter (uid : Nat) (pid : String) (r : Subscription) : Bool :=
  decide (r.userId = uid) && decide (r.status = "active") &&
    match r.gatewaySubscriptionId with
    | some g => decide (g ≠ pid)
    | none => false

/-- The atomic transaction of `handleActivatePayPal`: cancel the other active
rows, then upsert by gateway subscription id.  Returns the new row list and
the upserted row. -/
def activateTxn (rows : List Subscription) (uid : Nat) (pid : String)
    (planName : String) (localStatus : String) (startedAt nextBillingAt : Int)
    (freshId : Nat) : List Subscription × Subscription :=
  let canceledRows := rows.map
    (fun r => if otherActiveFilter uid pid r then { r with status := "canceled" } else r)
  match canceledRows.find? (fun r => r.gatewaySubscriptionId = some pid) with
  | some r =>
    let updated := { r with
      plan := planName
      status := promoteStatus localStatus
      gateway := "PAYPAL"
      startedAt := startedAt
      nextBillingAt := some nextBillingAt
      expiresAt := nextBillingAt }
    (canceledRows.map (fun q => if q.gatewaySubscriptionId = some pid then updated else q),
     updated)
  | none =>
    let created : Subscription :=
      { id := freshId
        userId := uid
        plan := planName
        status := promoteStatus localStatus
        gateway := "PAYPAL"
        gatewaySubscriptionId := some pid
        startedAt := startedAt
        nextBillingAt := some nextBillingAt
        expiresAt := nextBillingAt }
    (canceledRows ++ [created], created)

example : parsePlanInput "" "business" "monthly" = ("business", "monthly") := by decide
example : parsePlanInput "business_monthly" "" "" = ("business", "monthly") := by decide
example : parsePlanInput "monthly" "" "" = ("personal", "monthly") := by decide
example : mapPayPalStatusToLocal "ACTIVE" = "active" := by decide
example : mapPayPalStatusToLocal "Approval_Pending" = "pending" := by decide
example : mapPayPalStatusToLocal "" = "pending" := by decide
example : mapPayPalStatusToLocal "APPROVED" = "approved" := by decide

/-! ## Referral ledger (`getUserAccessEnd`, `createReferralBonusSubscription`,
`applyReferralReward` in the subscriptions handler).  Calendar arithmetic
(`addMonths(date, 1)` built on JS `Date.setMonth`) is an external primitive
and is passed in as `addOneMonth`. -/

structure ReferralInvite where
  id : Nat
  referrerUserId : Nat
  inviteeEmail : String
  inviteeUserId : Option Nat
  status : String
  createdAt : Int
  rewardedAt : Option Int
deriving Repr, DecidableEq

structure RefState where
  subs : List Subscription
  invites : List ReferralInvite
deriving Repr, DecidableEq

structure RewardResult where
  inviteId : Nat
  referrerUserId : Nat
  inviteeUserId : Nat
  rewardedAt : Int
deriving Repr, DecidableEq

/-- Embedding of `getUserAccessEnd(tx, userId, now)`: the `findFirst` with
`orderBy expiresAt desc` over rows with `status = "active"` and
`expiresAt > now` yields the maximal matching expiry; absent a match the
result is `now` (the final `> now` re-check in the source is implied by the
query filter). -/
def getUserAccessEnd (subs : List Subscription) (uid : Nat) (now : Int) : Int :=
  (subs.filter (fun s => decide (s.userId = uid) && decide (s.status = "active")
      && decide (now < s.expiresAt))).foldl
    (fun acc s => max acc s.expiresAt) now

/-- Embedding of `createReferralBonusSubscription(tx, userId, now)`; returns the created
row and the new table contents. -/
def createReferralBonus (addOneMonth : Int → Int) (subs : List Subscription)
    (uid : Nat) (now : Int) (freshId : Nat) : Subscription × List Subscription :=
  let startsAt := getUserAccessEnd subs uid now
  let expiresAt := addOneMonth startsAt
  let row : Subscription :=
    { id := freshId
      userId := uid
      plan := "personal_referral_bonus"
      status := "active"
      gateway := "REFERRAL"
      gatewaySubscriptionId := none
      startedAt := startsAt
      expiresAt := expiresAt
      nextBillingAt := some expiresAt }
  (row, subs ++ [row])

def inviteEligible (email : String) (inv : ReferralInvite) : Bool :=
  decide (inv.inviteeEmail = email) &&
    (decide (inv.status = "PENDING") || decide (inv.status = "REGISTERED"))

/-- The `findFirst` of `applyReferralReward`: oldest (`createdAt asc`) invite
targeting the invitee's email whose status is PENDING or REGISTERED; ties on
`createdAt` resolve to the earlier row. -/
def findOldestEligibleInvite (invites : List ReferralInvite) (email : String) :
    Option ReferralInvite :=
  match invites with
  | [] => none
  | inv :: rest =>
    let r := findOldestEligibleInvite rest email
    if inviteEligible email inv then
      match r with
      | none => some inv
      | some b => if inv.createdAt ≤ b.createdAt then some inv else some b
    else r

/-- Embedding of `applyReferralReward(tx, inviteeUser, now)` as a pure transformation of
the referral state; `fresh1`/`fresh2` are the ids the database assigns to the
two created bonus rows. -/
def applyReferralReward (addOneMonth : Int → Int) (st : RefState)
    (inviteeUserId : Nat) (inviteeEmail : String) (now : Int)
    (fresh1 fresh2 : Nat) : Option RewardResult × RefState :=
  match findOldestEligibleInvite st.invites inviteeEmail with
  | none => (none, st)
  | some inv =>
    let step1 := createReferralBonus addOneMonth st.subs inv.referrerUserId now fresh1
    let step2 := createReferralBonus addOneMonth step1.2 inviteeUserId now fresh2
    let invites1 := st.invites.map (fun i =>
      if i.id = inv.id then
        { i with
          inviteeUserId := some inviteeUserId
          status := "REWARDED"
          rewardedAt := some now }
      else i)
    (some { inviteId := inv.id
            referrerUserId := inv.referrerUserId
            inviteeUserId := inviteeUserId
            rewardedAt := now },
     { subs := step2.2, invites := invites1 })

/-! ## Token codec (`signMagicToken` / `verifyMagicToken` in the auth
handler).  Tokens are modelled as `List Char`.  `mac secret msg` stands for
the base64url HMAC-SHA256 digest, and `enc` / `dec` stand for
base64url-of-JSON serialization of the payload object; all three are library
primitives.  JS falsy checks on `payload.email` / `payload.exp` become
equality with `""` / `0`. -/

structure MagicPayload where
  email : String
  iat : Int
  exp : Int
  nonce : String
deriving Repr, DecidableEq

/-- Embedding of `signMagicToken(payloadObj, secret)`: `payload + "." + signature`. -/
def signMagicToken (mac : String → List Char → List Char)
    (enc : MagicPayload → List Char) (p : MagicPayload) (secret : String) :
    List Char :=
  enc p ++ '.' :: mac secret (enc p)

/-- Embedding of `verifyMagicToken(token, secret)`: `none` models `{valid: false}`. -/
def verifyMagicToken (mac : String → List Char → List Char)
    (dec : List Char → Option MagicPayload) (now : Int) (token : List Char)
    (secret : String) : Option MagicPayload :=
  match splitOnChar '.' token with
  | [payloadPart, signaturePart] =>
    let expected := mac secret payloadPart
    if signaturePart.length ≠ expected.length then none
    else if signaturePart ≠ expected then none
    else
      match dec payloadPart with
      | none => none
      | some p =>
        if p.email = "" then none
        else if p.exp = 0 then none
        else if p.exp < now then none
        else some p
  | _ => none

/-! ## Numeric sign-in code (`computeLoginCode` and the `verify_login_code`
acceptance check in the auth handler).  `hmac secret msg` is the raw
HMAC-SHA256 digest as a byte list. -/

/-- Embedding of `digest.readUInt32BE(0)`; an HMAC-SHA256 digest always has 32 bytes. -/
def readUInt32BE (bytes : List Nat) : Nat :=
  match bytes with
  | b0 :: b1 :: b2 :: b3 :: _ => ((b0 * 256 + b1) * 256 + b2) * 256 + b3
  | _ => 0

/-- The HMAC input string `email|slot|renpay-login-code-v1` (email trimmed
and lowercased as in the source). -/
def loginCodeMessage (email : String) (slot : Nat) : String :=
  asciiLower (trimStr email) ++ "|" ++ String.mk (decReprChars slot)
    ++ "|renpay-login-code-v1"

/-- Embedding of `computeLoginCode({email, secret, slot})`: first 4 digest bytes as a
big-endian unsigned integer mod 1,000,000, zero-padded to 6 characters. -/
def computeLoginCode (hmac : String → String → List Nat)
    (email secret : String) (slot : Nat) : List Char :=
  let digest := hmac secret (loginCodeMessage email slot)
  let number := readUInt32BE digest % 1000000
  (padLeft 0 6 (decDigits number)).map digitChar

/-- Acceptance check of the `verify_login_code` action: membership in the
two-element valid-code set built from the current and the previous slot. -/
def loginCodeAccepted (hmac : String → String → List Nat)
    (email secret : String) (currentSlot : Nat) (code : List Char) : Prop :=
  code = computeLoginCode hmac email secret currentSlot ∨
    code = computeLoginCode hmac email secret (currentSlot - 1)

instance (hmac : String → String → List Nat) (email secret : String)
    (currentSlot : Nat) (code : List Char) :
    Decidable (loginCodeAccepted hmac email secret currentSlot code) := by
  unfold loginCodeAccepted; infer_instance

/-! ## Client profiles handler (`handlePost` transaction in
`src/unnamed/part_000`). -/

structure ClientProfile where
  id : Nat
  userId : Nat
  clientId : String
  clientEmail : String
  clientName : Option String
deriving Repr, DecidableEq

/-- The `findFirst` filter: same user, case-insensitively equal client
email. -/
def cpEmailMatch (uid : Nat) (clientEmail : String) (r : ClientProfile) : Bool :=
  decide (r.userId = uid) && decide (asciiLower r.clientEmail = asciiLower clientEmail)

/-- The `upsert` keyed by the unique `(userId, clientId)` pair. -/
def cpUpsert (rows : List ClientProfile) (uid : Nat)
    (clientId clientEmail clientName : String) (freshId : Nat) :
    List ClientProfile × ClientProfile :=
  match rows.find? (fun r => decide (r.userId = uid) && decide (r.clientId = clientId)) with
  | some r =>
    let updated := { r with
      clientEmail := clientEmail
      clientName := if clientName = "" then none else some clientName }
    (rows.map (fun q => if q.id = r.id then updated else q), updated)
  | none =>
    let created : ClientProfile :=
      { id := freshId
        userId := uid
        clientId := clientId
        clientEmail := clientEmail
        clientName := if clientName = "" then none else some clientName }
    (rows ++ [created], created)

/-- The `handlePost` transaction: reconcile by case-insensitive client email
first, otherwise upsert by `(userId, clientId)`.  Inputs are already
normalized by the handler (`normalizeEmail` / `trim`). -/
def cpPostTxn (rows : List ClientProfile) (uid : Nat)
    (clientId clientEmail clientName : String) (freshId : Nat) :
    List ClientProfile × ClientProfile :=
  match rows.find? (cpEmailMatch uid clientEmail) with
  | some r =>
    if r.clientId ≠ clientId then
      let updated := { r with
        clientId := clientId
        clientName := if clientName = "" then r.clientName else some clientName }
      (rows.map (fun q => if q.id = r.id then updated else q), updated)
    else cpUpsert rows uid clientId clientEmail clientName freshId
  | none => cpUpsert rows uid clientId clientEmail clientName freshId

/-! ## Subscriptions GET handler (`handleGet` in the subscriptions part of
`src/unnamed/part_001`).  The found-user branch delegates to
`buildPlanStateForUser`, whose database- and PayPal-touching result is passed
in as `buildPlanState`. -/

structure UserRow where
  id : Nat
  email : String
deriving Repr, DecidableEq

structure PlanState where
  tier : String
  subscription : Option Subscription
  planFeatures : PlanFeatures
  ordersToday : Nat
  ordersThisWeek : Nat
deriving Repr, DecidableEq

structure SubsGetResponse where
  status : Nat
  subscription : Option Subscription
  tier : Option String
  planFeatures : Option PlanFeatures
  ordersToday : Nat
  ordersThisWeek : Nat
  errorMsg : Option String
deriving Repr, DecidableEq

/-- Embedding of `handleGet(req, res)`: returns the response together with the (unchanged)
user table — this handler only ever calls `findUnique`, never `create`. -/
def handleGetSubscriptions (buildPlanState : Nat → PlanState)
    (users : List UserRow) (emailRaw : String) :
    SubsGetResponse × List UserRow :=
  let email := normalizeEmail emailRaw
  if email = "" then
    ({ status := 400, subscription := none, tier := none, planFeatures := none,
       ordersToday := 0, ordersThisWeek := 0,
       errorMsg := some "Missing email parameter" }, users)
  else
    match users.find? (fun u => u.email = email) with
    | none =>
      ({ status := 200, subscription := none, tier := some "free",
         planFeatures := some (getPlanFeatures "free"),
         ordersToday := 0, ordersThisWeek := 0, errorMsg := none }, users)
    | some u =>
      let ps := buildPlanState u.id
      ({ status := 200, subscription := ps.subscription, tier := some ps.tier,
         planFeatures := some ps.planFeatures, ordersToday := ps.ordersToday,
         ordersThisWeek := ps.ordersThisWeek, errorMsg := none }, users)

/-! ## Helper lemmas -/

lemma foldl_winnerStep_some (xs : List Subscription) :
    ∀ a : Subscription,
      xs.foldl
        (fun acc next =>
          match acc with
          | none => some next
          | some cur => some (winnerStep cur next))
        (some a) = some (xs.foldl winnerStep a) := by
  induction xs with
  | nil => intro a; rfl
  | cons x xs ih => intro a; simpa using ih (winnerStep a x)

lemma selectWinner_cons (x : Subscription) (xs : List Subscription) :
    selectWinner (x :: xs) = some (xs.foldl winnerStep x) := by
  simpa [selectWinner] using foldl_winnerStep_some xs x

lemma winnerStep_keep_of_rank_eq_later {s t : Subscription}
    (hrank : getTierRank (getTierFromPlan s.plan) = getTierRank (getTierFromPlan t.plan))
    (hexp : t.expiresAt < s.expiresAt) : winnerStep s t = s := by
  unfold winnerStep
  rw [if_neg, if_neg]
  · rintro ⟨-, h⟩
    exact absurd hexp (not_lt.mpr (le_of_lt h))
  · rw [hrank]
    exact lt_irrefl _

lemma winnerStep_take_of_rank_eq_later {s t : Subscription}
    (hrank : getTierRank (getTierFromPlan s.plan) = getTierRank (getTierFromPlan t.plan))
    (hexp : t.expiresAt < s.expiresAt) : winnerStep t s = s := by
  unfold winnerStep
  by_cases h : getTierRank (getTierFromPlan s.plan) > getTierRank (getTierFromPlan t.plan)
  · rw [if_pos h]
  · rw [if_neg h, if_pos ⟨hrank, hexp⟩]

/-- C1: `buildPlanStateForUser` selects the winner by a left-to-right pairwise
reduction seeded with the first row (higher tier rank replaces the
accumulator; on equal rank a strictly later `expiresAt` replaces it), and for
two active rows of equal tier the one with the later `expiresAt` wins in
either order. -/
theorem selectWinner_reduction_and_tiebreak :
    (∀ (x : Subscription) (xs : List Subscription),
      selectWinner (x :: xs) = some (xs.foldl winnerStep x)) ∧
    (∀ s t : Subscription,
      getTierRank (getTierFromPlan s.plan) = getTierRank (getTierFromPlan t.plan) →
      t.expiresAt < s.expiresAt →
      selectWinner [s, t] = some s ∧ selectWinner [t, s] = some s) := by
  refine ⟨selectWinner_cons, fun s t hrank hexp => ⟨?_, ?_⟩⟩
  · rw [selectWinner_cons]
    simp [winnerStep_keep_of_rank_eq_later hrank hexp]
  · rw [selectWinner_cons]
    simp [winnerStep_take_of_rank_eq_later hrank hexp]

def subWLater : Subscription :=
  { id := 1, userId := 7, plan := "personal_monthly", status := "active",
    gateway := "INTERNAL", gatewaySubscriptionId := none, startedAt := 0,
    expiresAt := 100, nextBillingAt := none }

def subWEarlier : Subscription :=
  { id := 2, userId := 7, plan := "personal_annual", status := "active",
    gateway := "INTERNAL", gatewaySubscriptionId := none, startedAt := 0,
    expiresAt := 50, nextBillingAt := none }

/-- Witness for C1 at two concrete equal-tier rows. -/
theorem selectWinner_reduction_and_tiebreak_witness :
    selectWinner [subWLater, subWEarlier] = some subWLater ∧
      selectWinner [subWEarlier, subWLater] = some subWLater :=
  selectWinner_reduction_and_tiebreak.2 subWLater subWEarlier (by decide) (by decide)

/-! ## C3: PayPal gateway status mapping -/

/-- C3 counterexample: on the empty gateway status the mapping returns
`"pending"`, not the lowercase passthrough `""` that the claim's
else-clause prescribes. -/
theorem mapPayPalStatusToLocal_empty_not_passthrough :
    mapPayPalStatusToLocal "" = "pending" ∧
      asciiLower (asciiUpper "") = "" ∧ ("pending" : String) ≠ "" := by
  refine ⟨by decide, by decide, by decide⟩

lemma asciiUpper_eq_empty_iff (s : String) : asciiUpper s = "" ↔ s = "" := by
  cases s with
  | mk data =>
    simp [asciiUpper, String.ext_iff]

/-- C3 (amended): `ACTIVE→active`, `APPROVAL_PENDING→pending`,
`SUSPENDED→suspended`, `CANCELLED|EXPIRED→canceled` after uppercasing; any
other non-empty status maps to its lowercase passthrough; the empty status
maps to `pending`. -/
theorem mapPayPalStatusToLocal_characterization :
    ∀ s : String,
      (asciiUpper s = "ACTIVE" → mapPayPalStatusToLocal s = "active") ∧
      (asciiUpper s = "APPROVAL_PENDING" → mapPayPalStatusToLocal s = "pending") ∧
      (asciiUpper s = "SUSPENDED" → mapPayPalStatusToLocal s = "suspended") ∧
      ((asciiUpper s = "CANCELLED" ∨ asciiUpper s = "EXPIRED") →
        mapPayPalStatusToLocal s = "canceled") ∧
      (asciiUpper s ≠ "ACTIVE" → asciiUpper s ≠ "APPROVAL_PENDING" →
        asciiUpper s ≠ "SUSPENDED" → asciiUpper s ≠ "CANCELLED" →
        asciiUpper s ≠ "EXPIRED" → s ≠ "" →
        mapPayPalStatusToLocal s = asciiLower (asciiUpper s)) ∧
      mapPayPalStatusToLocal "" = "pending" := by
  intro s
  refine ⟨?_, ?_, ?_, ?_, ?_, by decide⟩
  · intro h; simp [mapPayPalStatusToLocal, h]
  · intro h; simp [mapPayPalStatusToLocal, h]
  · intro h; simp [mapPayPalStatusToLocal, h]
  · rintro (h | h) <;> simp [mapPayPalStatusToLocal, h]
  · intro h1 h2 h3 h4 h5 h6
    have h7 : asciiUpper s ≠ "" := fun h => h6 ((asciiUpper_eq_empty_iff s).mp h)
    simp [mapPayPalStatusToLocal, h1, h2, h3, h4, h5, h7]

/-- Witness for C3's amended passthrough clause at a concrete status. -/
theorem mapPayPalStatusToLocal_characterization_witness :
    mapPayPalStatusToLocal "Approved" = "approved" := by
  have h := (mapPayPalStatusToLocal_characterization "Approved").2.2.2.2.1
    (by decide) (by decide) (by decide) (by decide) (by decide) (by decide)
  rw [h]; decide

/-! ## C8: tier resolution -/

/-- C8 counterexample: `" monthly "` (leading/trailing blanks) is, after
lowercasing alone, neither exactly `"monthly"`/`"annual"` nor does it contain
`"business"`/`"personal"`/`"referral"`, so the claim's case analysis places
it in the `free` bucket — but the code trims before matching and returns
`personal`. -/
theorem getTierFromPlan_untrimmed_mismatch :
    getTierFromPlan " monthly " = "personal" ∧
      asciiLower " monthly " ≠ "monthly" ∧
      asciiLower " monthly " ≠ "annual" ∧
      containsSub (asciiLower " monthly ").data "business".data = false ∧
      containsSub (asciiLower " monthly ").data "personal".data = false ∧
      containsSub (asciiLower " monthly ").data "referral".data = false := by
  decide

/-- C8 (amended): tier resolution lowercases AND trims the input; the trimmed
lowercased form decides the tier: substring `business` → business, else
substring `personal` / exact `monthly` / exact `annual` / substring
`referral` → personal, else free; tier ranks are business=3 > personal=2 >
free=1. -/
theorem getTierFromPlan_characterization :
    (∀ plan : String,
      (containsSub (normalizePlan plan).data "business".data = true →
        getTierFromPlan plan = "business") ∧
      (containsSub (normalizePlan plan).data "business".data = false →
        (containsSub (normalizePlan plan).data "personal".data = true ∨
          normalizePlan plan = "monthly" ∨ normalizePlan plan = "annual" ∨
          containsSub (normalizePlan plan).data "referral".data = true) →
        getTierFromPlan plan = "personal") ∧
      (containsSub (normalizePlan plan).data "business".data = false →
        ¬(containsSub (normalizePlan plan).data "personal".data = true ∨
          normalizePlan plan = "monthly" ∨ normalizePlan plan = "annual" ∨
          containsSub (normalizePlan plan).data "referral".data = true) →
        getTierFromPlan plan = "free")) ∧
    getTierRank "business" = 3 ∧ getTierRank "personal" = 2 ∧
    getTierRank "free" = 1 ∧
    getTierRank "free" < getTierRank "personal" ∧
    getTierRank "personal" < getTierRank "business" := by
  refine ⟨fun plan => ⟨?_, ?_, ?_⟩, by decide, by decide, by decide, by decide, by decide⟩
  · intro hb
    have hne : normalizePlan plan ≠ "" := by
      intro h
      rw [h] at hb
      exact absurd hb (by decide)
    simp [getTierFromPlan, hne, hb]
  · intro hb hp
    by_cases hne : normalizePlan plan = ""
    · exfalso
      rw [hne] at hp
      rcases hp with h | h | h | h <;> revert h <;> decide
    · simp only [getTierFromPlan]
      rw [if_neg hne, if_neg (by simp [hb]), if_pos]
      rcases hp with h | h | h | h
      · exact Or.inl h
      · exact Or.inr (Or.inl h)
      · exact Or.inr (Or.inr (Or.inl h))
      · exact Or.inr (Or.inr (Or.inr h))
  · intro hb hp
    by_cases hne : normalizePlan plan = ""
    · simp [getTierFromPlan, hne]
    · simp only [getTierFromPlan]
      rw [if_neg hne, if_neg (by simp [hb]), if_neg]
      rintro (h | h | h | h) <;> exact hp (by tauto)

/-- Witness for C8's amended characterization at concrete plan strings. -/
theorem getTierFromPlan_characterization_witness :
    getTierFromPlan "business_annual" = "business" ∧
      getTierFromPlan "personal_referral_bonus" = "personal" ∧
      getTierFromPlan "" = "free" :=
  ⟨(getTierFromPlan_characterization.1 "business_annual").1 (by decide),
   ((getTierFromPlan_characterization.1 "personal_referral_bonus").2.1 (by decide)
      (Or.inl (by decide))),
   ((getTierFromPlan_characterization.1 "").2.2 (by decide) (by decide))⟩

/-! ## C10: subscriptions GET for an unknown email -/

/-- C10: a GET with a (normalizable, non-empty) email that matches no user
row answers 200 with `subscription = null`, tier `free`, the free feature
set and zero usage counters, and leaves the user table untouched (the
handler only ever reads it). -/
theorem handleGetSubscriptions_unknown_email :
    ∀ (buildPlanState : Nat → PlanState) (users : List UserRow) (emailRaw : String),
      normalizeEmail emailRaw ≠ "" →
      (∀ u ∈ users, u.email ≠ normalizeEmail emailRaw) →
      handleGetSubscriptions buildPlanState users emailRaw =
        ({ status := 200, subscription := none, tier := some "free",
           planFeatures := some planFeaturesFree, ordersToday := 0,
           ordersThisWeek := 0, errorMsg := none }, users) := by
  intro bps users emailRaw hne hnone
  have hfind : users.find? (fun u => u.email = normalizeEmail emailRaw) = none := by
    rw [List.find?_eq_none]
    intro u hu
    simpa using hnone u hu
  have hfree : getPlanFeatures "free" = planFeaturesFree := by decide
  simp [handleGetSubscriptions, hne, hfind, hfree]

def usersW : List UserRow := [{ id := 1, email := "existing@site.test" }]

/-- Witness for C10 at a concrete user table and a fresh email. -/
theorem handleGetSubscriptions_unknown_email_witness :
    handleGetSubscriptions
      (fun _ =>
        { tier := "free"
          subscription := none
          planFeatures := planFeaturesFree
          ordersToday := 0
          ordersThisWeek := 0 })
      usersW "New@User.test " =
      ({ status := 200, subscription := none, tier := some "free",
         planFeatures := some planFeaturesFree, ordersToday := 0,
         ordersThisWeek := 0, errorMsg := none }, usersW) :=
  handleGetSubscriptions_unknown_email _ usersW "New@User.test "
    (by decide) (by decide)

/-! ## Decimal-digit lemmas for the sign-in code -/

lemma digitsToNat_append_single (l : List Nat) (b : Nat) :
    digitsToNat (l ++ [b]) = digitsToNat l * 10 + b := by
  simp [digitsToNat, List.foldl_append]

lemma natDigits_digitsToNat :
    ∀ (fuel n : Nat), n < fuel → digitsToNat (natDigits fuel n) = n := by
  intro fuel
  induction fuel with
  | zero => intro n h; omega
  | succ fuel ih =>
    intro n h
    by_cases h10 : n < 10
    · simp [natDigits, h10, digitsToNat]
    · have hpos : 0 < n := by omega
      have hdiv : n / 10 < n := Nat.div_lt_self hpos (by omega)
      have hfuel : n / 10 < fuel := by omega
      rw [show natDigits (fuel + 1) n = natDigits fuel (n / 10) ++ [n % 10] by
        simp [natDigits, h10]]
      rw [digitsToNat_append_single, ih _ hfuel]
      omega

lemma natDigits_length_le :
    ∀ (fuel n k : Nat), 0 < k → n < 10 ^ k → (natDigits fuel n).length ≤ k := by
  intro fuel
  induction fuel with
  | zero => intro n k hk _; simp [natDigits]
  | succ fuel ih =>
    intro n k hk hn
    by_cases h10 : n < 10
    · simp [natDigits, h10]; omega
    · have hk1 : 1 < k := by
        by_contra hle
        have : k = 1 := by omega
        rw [this] at hn
        simp at hn
        omega
      have hdiv : n / 10 < 10 ^ (k - 1) := by
        rw [Nat.div_lt_iff_lt_mul (by omega : (0:Nat) < 10)]
        have : 10 ^ (k - 1) * 10 = 10 ^ k := by
          rw [← pow_succ]
          congr 1
          omega
        omega
      have := ih (n / 10) (k - 1) (by omega) hdiv
      rw [show natDigits (fuel + 1) n = natDigits fuel (n / 10) ++ [n % 10] by
        simp [natDigits, h10]]
      simp only [List.length_append, List.length_cons, List.length_nil]
      omega

lemma natDigits_mem_lt_ten :
    ∀ (fuel n d : Nat), d ∈ natDigits fuel n → d < 10 := by
  intro fuel
  induction fuel with
  | zero => intro n d h; simp [natDigits] at h
  | succ fuel ih =>
    intro n d h
    by_cases h10 : n < 10
    · simp [natDigits, h10] at h
      omega
    · rw [show natDigits (fuel + 1) n = natDigits fuel (n / 10) ++ [n % 10] by
        simp [natDigits, h10]] at h
      rcases List.mem_append.mp h with h | h
      · exact ih _ _ h
      · simp at h
        omega

lemma digitsToNat_replicate_zero (m : Nat) :
    List.foldl (fun a d => a * 10 + d) 0 (List.replicate m 0) = 0 := by
  induction m with
  | zero => rfl
  | succ m ih => simpa [List.replicate_succ] using ih

lemma digitsToNat_padLeft (l : List Nat) (k : Nat) :
    digitsToNat (padLeft 0 k l) = digitsToNat l := by
  simp [padLeft, digitsToNat, List.foldl_append, digitsToNat_replicate_zero]

lemma padLeft_length {l : List α} {k : Nat} (x : α) (h : l.length ≤ k) :
    (padLeft x k l).length = k := by
  simp [padLeft]
  omega

lemma digitChar_bounds (d : Nat) (h : d < 10) :
    '0' ≤ digitChar d ∧ digitChar d ≤ '9' ∧ (digitChar d).toNat - 48 = d := by
  interval_cases d <;> decide

lemma map_val_map_digitChar (l : List Nat) (h : ∀ d ∈ l, d < 10) :
    (l.map digitChar).map (fun c => c.toNat - 48) = l := by
  rw [List.map_map]
  have : ∀ d ∈ l, ((fun c => c.toNat - 48) ∘ digitChar) d = id d := by
    intro d hd
    exact (digitChar_bounds d (h d hd)).2.2
  rw [List.map_congr_left this, List.map_id]

/-- C7: the sign-in code is a pure function of (email, secret, slot) — hence
deterministic — producing exactly 6 zero-padded decimal digits whose value is
the first 4 digest bytes of HMAC(secret, email|slot|renpay-login-code-v1)
read big-endian, mod 1,000,000; the `verify_login_code` check accepts the
codes of the current slot `N` and of slot `N-1`, and rejects the slot `N-2`
code whenever it differs from both accepted codes. -/
theorem computeLoginCode_spec_and_slot_window :
    ∀ (hmac : String → String → List Nat) (email secret : String) (slot : Nat),
      (computeLoginCode hmac email secret slot).length = 6 ∧
      (∀ c ∈ computeLoginCode hmac email secret slot, '0' ≤ c ∧ c ≤ '9') ∧
      digitsToNat ((computeLoginCode hmac email secret slot).map (fun c => c.toNat - 48)) =
        readUInt32BE (hmac secret (loginCodeMessage email slot)) % 1000000 ∧
      (∀ N : Nat,
        loginCodeAccepted hmac email secret N (computeLoginCode hmac email secret N) ∧
        loginCodeAccepted hmac email secret N (computeLoginCode hmac email secret (N - 1)) ∧
        (2 ≤ N →
          computeLoginCode hmac email secret (N - 2) ≠ computeLoginCode hmac email secret N →
          computeLoginCode hmac email secret (N - 2) ≠
            computeLoginCode hmac email secret (N - 1) →
          ¬ loginCodeAccepted hmac email secret N
            (computeLoginCode hmac email secret (N - 2)))) := by
  intro hmac email secret slot
  set number := readUInt32BE (hmac secret (loginCodeMessage email slot)) % 1000000 with hnum
  have hlt : number < 1000000 := Nat.mod_lt _ (by omega)
  have hdigits : ∀ d ∈ decDigits number, d < 10 := fun d hd =>
    natDigits_mem_lt_ten _ _ _ hd
  have hlen6 : (padLeft 0 6 (decDigits number)).length = 6 := by
    refine padLeft_length 0 ?_
    exact natDigits_length_le _ _ 6 (by omega) (by omega)
  have hpad : ∀ d ∈ padLeft 0 6 (decDigits number), d < 10 := by
    intro d hd
    rcases List.mem_append.mp hd with h | h
    · rw [List.eq_of_mem_replicate h]; omega
    · exact hdigits d h
  refine ⟨?_, ?_, ?_, ?_⟩
  · simpa [computeLoginCode] using hlen6
  · intro c hc
    simp only [computeLoginCode, List.mem_map] at hc
    obtain ⟨d, hd, rfl⟩ := hc
    have := digitChar_bounds d (hpad d hd)
    exact ⟨this.1, this.2.1⟩
  · show digitsToNat (((padLeft 0 6 (decDigits number)).map digitChar).map
      (fun c => c.toNat - 48)) = number
    rw [map_val_map_digitChar _ hpad, digitsToNat_padLeft]
    exact natDigits_digitsToNat _ _ (by omega)
  · intro N
    refine ⟨Or.inl rfl, Or.inr rfl, ?_⟩
    intro _ hne1 hne2 hacc
    rcases hacc with h | h
    · exact hne1 h
    · exact hne2 h

def hmacSumW : String → String → List Nat :=
  fun _ msg => [0, 0, 0, msg.data.foldl (fun a c => a + c.toNat) 0]

/-- Witness for C7 at a concrete hash function, email and slot 100. -/
theorem computeLoginCode_spec_and_slot_window_witness :
    (computeLoginCode hmacSumW "a" "s" 100).length = 6 ∧
      ¬ loginCodeAccepted hmacSumW "a" "s" 100 (computeLoginCode hmacSumW "a" "s" 98) := by
  have h := computeLoginCode_spec_and_slot_window hmacSumW "a" "s" 100
  exact ⟨h.1, (h.2.2.2 100).2.2 (by decide) (by decide) (by decide)⟩

/-! ## Split lemmas for the token codec -/

lemma splitOnChar_ne_nil (sep : Char) (l : List Char) : splitOnChar sep l ≠ [] := by
  induction l with
  | nil => simp [splitOnChar]
  | cons c rest ih =>
    by_cases h : c = sep
    · simp [splitOnChar, h]
    · simp only [splitOnChar, if_neg h]
      rcases hr : splitOnChar sep rest with _ | ⟨x, t⟩
      · simp
      · simp

lemma splitOnChar_no_sep (sep : Char) (l : List Char) (h : sep ∉ l) :
    splitOnChar sep l = [l] := by
  induction l with
  | nil => rfl
  | cons c rest ih =>
    have hc : ¬ c = sep := fun hcc => h (by simp [hcc])
    have hrest : sep ∉ rest := fun hm => h (List.mem_cons_of_mem _ hm)
    simp only [splitOnChar, if_neg hc, ih hrest]

lemma splitOnChar_append (sep : Char) (a b : List Char) (h : sep ∉ a) :
    splitOnChar sep (a ++ sep :: b) = a :: splitOnChar sep b := by
  induction a with
  | nil => simp [splitOnChar]
  | cons c a ih =>
    have hc : ¬ c = sep := fun hcc => h (by simp [hcc])
    have ha : sep ∉ a := fun hm => h (List.mem_cons_of_mem _ hm)
    simp only [List.cons_append, splitOnChar, if_neg hc]
    rw [show List.append a (sep :: b) = a ++ sep :: b from rfl, ih ha]

lemma splitOnChar_two_le_of_mem (sep : Char) (l : List Char) (h : sep ∈ l) :
    2 ≤ (splitOnChar sep l).length := by
  induction l with
  | nil => simp at h
  | cons c rest ih =>
    by_cases hc : c = sep
    · simp only [splitOnChar, if_pos hc, List.length_cons]
      have := splitOnChar_ne_nil sep rest
      have : 1 ≤ (splitOnChar sep rest).length := by
        rcases hr : splitOnChar sep rest with _ | ⟨x, t⟩
        · exact absurd hr this
        · simp
      omega
    · have hrest : sep ∈ rest := by
        rcases List.mem_cons.mp h with h | h
        · exact absurd h.symm hc
        · exact h
      have h2 := ih hrest
      simp only [splitOnChar, if_neg hc]
      rcases hr : splitOnChar sep rest with _ | ⟨x, t⟩
      · exact absurd hr (splitOnChar_ne_nil sep rest)
      · rw [hr] at h2
        simpa using h2

/-- C2: token round-trip and rejection behaviour of
`verifyMagicToken`/`signMagicToken`.  `mac` is the base64url HMAC-SHA256
primitive, `enc`/`dec` the base64url-JSON payload serialization; base64url
output never contains the `'.'` separator, which the statement carries as
hypotheses on the relevant values.  The signature comparison rejects on
length mismatch before the (constant-time) byte comparison; both rejections
are covered by the tamper clause. -/
theorem verifyMagicToken_roundtrip_and_rejections :
    ∀ (mac : String → List Char → List Char) (enc : MagicPayload → List Char)
      (dec : List Char → Option MagicPayload) (secret : String) (now : Int),
      0 ≤ now →
      (∀ p : MagicPayload,
        dec (enc p) = some p → '.' ∉ enc p → '.' ∉ mac secret (enc p) →
        p.email ≠ "" →
        ((now < p.exp →
          verifyMagicToken mac dec now (signMagicToken mac enc p secret) secret = some p) ∧
         (p.exp < now →
          verifyMagicToken mac dec now (signMagicToken mac enc p secret) secret = none))) ∧
      (∀ (payloadPart sig : List Char),
        '.' ∉ payloadPart → sig ≠ mac secret payloadPart →
        verifyMagicToken mac dec now (payloadPart ++ '.' :: sig) secret = none) ∧
      (∀ token : List Char, (splitOnChar '.' token).length ≠ 2 →
        verifyMagicToken mac dec now token secret = none) ∧
      (∀ payloadPart : List Char, '.' ∉ payloadPart → '.' ∉ mac secret payloadPart →
        dec payloadPart = none →
        verifyMagicToken mac dec now (payloadPart ++ '.' :: mac secret payloadPart) secret
          = none) ∧
      (∀ (payloadPart : List Char) (q : MagicPayload),
        '.' ∉ payloadPart → '.' ∉ mac secret payloadPart → dec payloadPart = some q →
        (q.email = "" ∨ q.exp = 0) →
        verifyMagicToken mac dec now (payloadPart ++ '.' :: mac secret payloadPart) secret
          = none) := by
  intro mac enc dec secret now hnow
  refine ⟨?_, ?_, ?_, ?_, ?_⟩
  · intro p hdec hencdot hmacdot hemail
    have hsplit : splitOnChar '.' (signMagicToken mac enc p secret)
        = [enc p, mac secret (enc p)] := by
      rw [signMagicToken, splitOnChar_append _ _ _ hencdot,
        splitOnChar_no_sep _ _ hmacdot]
    constructor
    · intro hfut
      have hexp0 : p.exp ≠ 0 := by omega
      have hnotpast : ¬ p.exp < now := by omega
      simp [verifyMagicToken, hsplit, hdec, hemail, hexp0, hnotpast]
    · intro hpast
      by_cases hexp0 : p.exp = 0
      · simp [verifyMagicToken, hsplit, hdec, hemail, hexp0]
      · simp [verifyMagicToken, hsplit, hdec, hemail, hexp0, hpast]
  · intro payloadPart sig hpdot hsig
    by_cases hdot : '.' ∈ sig
    · have h2 := splitOnChar_two_le_of_mem '.' sig hdot
      have hsplit : splitOnChar '.' (payloadPart ++ '.' :: sig)
          = payloadPart :: splitOnChar '.' sig :=
        splitOnChar_append _ _ _ hpdot
      rcases hs : splitOnChar '.' sig with _ | ⟨x, _ | ⟨y, t⟩⟩
      · exact absurd hs (splitOnChar_ne_nil '.' sig)
      · rw [hs] at h2; simp at h2
      · rw [hs] at hsplit
        simp [verifyMagicToken, hsplit]
    · have hsplit : splitOnChar '.' (payloadPart ++ '.' :: sig)
          = [payloadPart, sig] := by
        rw [splitOnChar_append _ _ _ hpdot, splitOnChar_no_sep _ _ hdot]
      by_cases hlen : sig.length = (mac secret payloadPart).length
      · simp [verifyMagicToken, hsplit, hlen, hsig]
      · simp [verifyMagicToken, hsplit, hlen]
  · intro token hlen
    rcases hs : splitOnChar '.' token with _ | ⟨x, _ | ⟨y, _ | ⟨z, t⟩⟩⟩
    · exact absurd hs (splitOnChar_ne_nil '.' token)
    · simp [verifyMagicToken, hs]
    · rw [hs] at hlen; simp at hlen
    · simp [verifyMagicToken, hs]
  · intro payloadPart hpdot hmacdot hdec
    have hsplit : splitOnChar '.' (payloadPart ++ '.' :: mac secret payloadPart)
        = [payloadPart, mac secret payloadPart] := by
      rw [splitOnChar_append _ _ _ hpdot, splitOnChar_no_sep _ _ hmacdot]
    simp [verifyMagicToken, hsplit, hdec]
  · intro payloadPart q hpdot hmacdot hdec hmiss
    have hsplit : splitOnChar '.' (payloadPart ++ '.' :: mac secret payloadPart)
        = [payloadPart, mac secret payloadPart] := by
      rw [splitOnChar_append _ _ _ hpdot, splitOnChar_no_sep _ _ hmacdot]
    rcases hmiss with h | h
    · simp [verifyMagicToken, hsplit, hdec, h]
    · by_cases hemail : q.email = ""
      · simp [verifyMagicToken, hsplit, hdec, hemail]
      · simp [verifyMagicToken, hsplit, hdec, hemail, h]

def payloadW : MagicPayload := { email := "a", iat := 0, exp := 5, nonce := "" }

def encW : MagicPayload → List Char := fun _ => ['p']

def decW : List Char → Option MagicPayload :=
  fun s => if s = ['p'] then some payloadW else none

def macW : String → List Char → List Char := fun _ _ => ['m']

/-- Witness for C2 at a concrete codec instantiation: a signed future-expiry
token verifies back to its payload, and a tampered signature is rejected. -/
theorem verifyMagicToken_roundtrip_and_rejections_witness :
    verifyMagicToken macW decW 1 (signMagicToken macW encW payloadW "s") "s"
        = some payloadW ∧
      verifyMagicToken macW decW 1 (['p'] ++ '.' :: ['x']) "s" = none := by
  have h := verifyMagicToken_roundtrip_and_rejections macW encW decW "s" 1 (by decide)
  exact ⟨(h.1 payloadW (by decide) (by decide) (by decide) (by decide)).1 (by decide),
         h.2.1 ['p'] ['x'] (by decide) (by decide)⟩

/-! ## Referral-ledger lemmas -/

lemma foldl_max_expires_init_le :
    ∀ (l : List Subscription) (a : Int),
      a ≤ l.foldl (fun acc s => max acc s.expiresAt) a := by
  intro l
  induction l with
  | nil => intro a; exact le_refl a
  | cons x l ih =>
    intro a
    exact le_trans (le_max_left a x.expiresAt) (ih (max a x.expiresAt))

lemma foldl_max_expires_mem_le :
    ∀ (l : List Subscription) (a : Int) (s : Subscription), s ∈ l →
      s.expiresAt ≤ l.foldl (fun acc t => max acc t.expiresAt) a := by
  intro l
  induction l with
  | nil => intro a s h; simp at h
  | cons x l ih =>
    intro a s h
    rcases List.mem_cons.mp h with h | h
    · subst h
      exact le_trans (le_max_right a s.expiresAt)
        (foldl_max_expires_init_le l (max a s.expiresAt))
    · exact ih _ s h

lemma getUserAccessEnd_now_le (subs : List Subscription) (uid : Nat) (now : Int) :
    now ≤ getUserAccessEnd subs uid now :=
  foldl_max_expires_init_le _ now

lemma getUserAccessEnd_expiry_le (subs : List Subscription) (uid : Nat) (now : Int)
    (s : Subscription) (hmem : s ∈ subs) (huid : s.userId = uid)
    (hact : s.status = "active") (hexp : now < s.expiresAt) :
    s.expiresAt ≤ getUserAccessEnd subs uid now := by
  refine foldl_max_expires_mem_le _ now s ?_
  rw [List.mem_filter]
  exact ⟨hmem, by simp [huid, hact, hexp]⟩

lemma getUserAccessEnd_append_other (subs : List Subscription) (r : Subscription)
    (uid : Nat) (now : Int) (h : r.userId ≠ uid) :
    getUserAccessEnd (subs ++ [r]) uid now = getUserAccessEnd subs uid now := by
  unfold getUserAccessEnd
  rw [List.filter_append]
  have : List.filter (fun s => decide (s.userId = uid) && decide (s.status = "active")
      && decide (now < s.expiresAt)) [r] = [] := by
    simp [h]
  rw [this, List.append_nil]

lemma findOldestEligibleInvite_mem :
    ∀ (invites : List ReferralInvite) (email : String) (inv : ReferralInvite),
      findOldestEligibleInvite invites email = some inv →
      inv ∈ invites ∧ inviteEligible email inv = true := by
  intro invites
  induction invites with
  | nil => intro email inv h; simp [findOldestEligibleInvite] at h
  | cons i rest ih =>
    intro email inv h
    simp only [findOldestEligibleInvite] at h
    by_cases he : inviteEligible email i
    · rw [if_pos he] at h
      rcases hr : findOldestEligibleInvite rest email with _ | b
      · rw [hr] at h
        simp at h
        subst h
        exact ⟨List.mem_cons_self _ _, he⟩
      · rw [hr] at h
        have h2 : (if i.createdAt ≤ b.createdAt then some i else some b) = some inv := h
        by_cases hle : i.createdAt ≤ b.createdAt
        · rw [if_pos hle] at h2
          simp at h2
          subst h2
          exact ⟨List.mem_cons_self _ _, he⟩
        · rw [if_neg hle] at h2
          simp at h2
          subst h2
          have hb := ih email _ hr
          exact ⟨List.mem_cons_of_mem _ hb.1, hb.2⟩
    · rw [if_neg he] at h
      have := ih email inv h
      exact ⟨List.mem_cons_of_mem _ this.1, this.2⟩

lemma findOldestEligibleInvite_eq_none :
    ∀ (invites : List ReferralInvite) (email : String),
      (∀ i ∈ invites, inviteEligible email i = false) →
      findOldestEligibleInvite invites email = none := by
  intro invites
  induction invites with
  | nil => intro email _; rfl
  | cons i rest ih =>
    intro email h
    have hi := h i (List.mem_cons_self _ _)
    simp only [findOldestEligibleInvite]
    rw [if_neg (by simp [hi])]
    exact ih email (fun j hj => h j (List.mem_cons_of_mem _ hj))

/-- C5: a successful referral reward appends exactly two REFERRAL
`personal_referral_bonus` rows — one for the referrer, one for the invitee —
each starting at the later of `now` and that recipient's latest active
subscription expiry (computed independently per recipient on the original
table) and expiring one month after its start, and marks the invite
REWARDED with the invitee's user id and the reward timestamp. -/
theorem applyReferralReward_grants_bonuses :
    ∀ (am : Int → Int) (st : RefState) (uid : Nat) (email : String) (now : Int)
      (f1 f2 : Nat) (inv : ReferralInvite),
      findOldestEligibleInvite st.invites email = some inv →
      inv.referrerUserId ≠ uid →
      ∃ r1 r2 : Subscription,
        (applyReferralReward am st uid email now f1 f2).1 =
          some { inviteId := inv.id, referrerUserId := inv.referrerUserId,
                 inviteeUserId := uid, rewardedAt := now } ∧
        (applyReferralReward am st uid email now f1 f2).2.subs
          = st.subs ++ [r1, r2] ∧
        r1.userId = inv.referrerUserId ∧ r1.plan = "personal_referral_bonus" ∧
        r1.gateway = "REFERRAL" ∧ r1.status = "active" ∧
        r1.startedAt = getUserAccessEnd st.subs inv.referrerUserId now ∧
        r1.expiresAt = am r1.startedAt ∧
        r2.userId = uid ∧ r2.plan = "personal_referral_bonus" ∧
        r2.gateway = "REFERRAL" ∧ r2.status = "active" ∧
        r2.startedAt = getUserAccessEnd st.subs uid now ∧
        r2.expiresAt = am r2.startedAt ∧
        now ≤ r1.startedAt ∧ now ≤ r2.startedAt ∧
        (∀ s ∈ st.subs, s.userId = inv.referrerUserId → s.status = "active" →
          now < s.expiresAt → s.expiresAt ≤ r1.startedAt) ∧
        (∀ s ∈ st.subs, s.userId = uid → s.status = "active" →
          now < s.expiresAt → s.expiresAt ≤ r2.startedAt) ∧
        (∃ i ∈ (applyReferralReward am st uid email now f1 f2).2.invites,
          i.id = inv.id ∧ i.status = "REWARDED" ∧ i.inviteeUserId = some uid ∧
          i.rewardedAt = some now) := by
  intro am st uid email now f1 f2 inv hfind hne
  have hmem := (findOldestEligibleInvite_mem st.invites email inv hfind).1
  refine ⟨(createReferralBonus am st.subs inv.referrerUserId now f1).1,
          (createReferralBonus am
            (createReferralBonus am st.subs inv.referrerUserId now f1).2
            uid now f2).1, ?_⟩
  have hr1start : (createReferralBonus am st.subs inv.referrerUserId now f1).1.startedAt
      = getUserAccessEnd st.subs inv.referrerUserId now := rfl
  have hr2start : (createReferralBonus am
        (createReferralBonus am st.subs inv.referrerUserId now f1).2
        uid now f2).1.startedAt = getUserAccessEnd st.subs uid now := by
    show getUserAccessEnd (st.subs ++ [(createReferralBonus am st.subs
      inv.referrerUserId now f1).1]) uid now = getUserAccessEnd st.subs uid now
    exact getUserAccessEnd_append_other _ _ _ _ hne
  refine ⟨?_, ?_, rfl, rfl, rfl, rfl, hr1start, rfl, rfl, rfl, rfl, rfl,
    hr2start, rfl, ?_, ?_, ?_, ?_, ?_⟩
  · simp [applyReferralReward, hfind]
  · simp only [applyReferralReward, hfind]
    show (createReferralBonus am
        (createReferralBonus am st.subs inv.referrerUserId now f1).2 uid now f2).2
      = st.subs ++ _
    show ((st.subs ++ [_]) ++ [_]) = _
    rw [List.append_assoc]
    rfl
  · rw [hr1start]; exact getUserAccessEnd_now_le _ _ _
  · rw [hr2start]; exact getUserAccessEnd_now_le _ _ _
  · intro s hs huid hact hexp
    rw [hr1start]
    exact getUserAccessEnd_expiry_le _ _ _ s hs huid hact hexp
  · intro s hs huid hact hexp
    rw [hr2start]
    exact getUserAccessEnd_expiry_le _ _ _ s hs huid hact hexp
  · refine ⟨{ inv with
        inviteeUserId := some uid
        status := "REWARDED"
        rewardedAt := some now }, ?_, by simp, by simp, by simp, by simp⟩
    simp only [applyReferralReward, hfind]
    have heq : ({ inv with
        inviteeUserId := some uid
        status := "REWARDED"
        rewardedAt := some now } : ReferralInvite) =
        (fun i => if i.id = inv.id then
          { i with
            inviteeUserId := some uid
            status := "REWARDED"
            rewardedAt := some now } else i) inv := by
      simp
    rw [heq]
    exact List.mem_map_of_mem _ hmem

def amW : Int → Int := fun t => t + 2592000000

def refSubW : Subscription :=
  { id := 9, userId := 1, plan := "personal_monthly", status := "active",
    gateway := "INTERNAL", gatewaySubscriptionId := none, startedAt := 0,
    expiresAt := 500, nextBillingAt := none }

def invW : ReferralInvite :=
  { id := 3, referrerUserId := 1, inviteeEmail := "inv@x.test",
    inviteeUserId := none, status := "PENDING", createdAt := 10,
    rewardedAt := none }

def refStateW : RefState := { subs := [refSubW], invites := [invW] }

/-- Witness for C5 at a concrete pending invite. -/
theorem applyReferralReward_grants_bonuses_witness :
    (applyReferralReward amW refStateW 2 "inv@x.test" 100 20 21).1 =
      some { inviteId := 3, referrerUserId := 1, inviteeUserId := 2,
             rewardedAt := 100 } := by
  obtain ⟨r1, r2, h⟩ := applyReferralReward_grants_bonuses amW refStateW 2
    "inv@x.test" 100 20 21 invW (by decide) (by decide)
  exact h.1

/-- C6: the reward is granted at most once per invite — only PENDING or
REGISTERED invites are ever selected; a REWARDED invite stays REWARDED
through any further reward application; when every invite for the email is
already REWARDED the call is a no-op (no bonus rows created); and a second
invocation right after a reward that consumed the only invite for that email
changes nothing. -/
theorem applyReferralReward_at_most_once :
    ∀ (am : Int → Int) (st : RefState) (uid : Nat) (email : String) (now : Int)
      (f1 f2 : Nat),
      (∀ inv : ReferralInvite,
        findOldestEligibleInvite st.invites email = some inv →
        inv.status = "PENDING" ∨ inv.status = "REGISTERED") ∧
      (∀ i ∈ st.invites, i.status = "REWARDED" →
        ∃ i' ∈ (applyReferralReward am st uid email now f1 f2).2.invites,
          i'.id = i.id ∧ i'.status = "REWARDED") ∧
      ((∀ i ∈ st.invites, i.inviteeEmail = email → i.status = "REWARDED") →
        applyReferralReward am st uid email now f1 f2 = (none, st)) ∧
      (∀ inv : ReferralInvite,
        findOldestEligibleInvite st.invites email = some inv →
        (∀ i ∈ st.invites, i.inviteeEmail = email → i.id = inv.id) →
        ∀ g1 g2 : Nat,
          applyReferralReward am
              ((applyReferralReward am st uid email now f1 f2).2) uid email now g1 g2
            = (none, (applyReferralReward am st uid email now f1 f2).2)) := by
  intro am st uid email now f1 f2
  refine ⟨?_, ?_, ?_, ?_⟩
  · intro inv hfind
    have := (findOldestEligibleInvite_mem st.invites email inv hfind).2
    simp [inviteEligible] at this
    exact this.2
  · intro i hmem hstat
    rcases hfind : findOldestEligibleInvite st.invites email with _ | inv
    · exact ⟨i, by simp [applyReferralReward, hfind, hmem], rfl, hstat⟩
    · refine ⟨(fun j => if j.id = inv.id then
          { j with
            inviteeUserId := some uid
            status := "REWARDED"
            rewardedAt := some now } else j) i, ?_, ?_, ?_⟩
      · simp only [applyReferralReward, hfind]
        exact List.mem_map_of_mem _ hmem
      · by_cases hid : i.id = inv.id <;> simp [hid]
      · by_cases hid : i.id = inv.id <;> simp [hid, hstat]
  · intro hall
    have hnone : findOldestEligibleInvite st.invites email = none := by
      refine findOldestEligibleInvite_eq_none st.invites email ?_
      intro i hi
      by_cases he : i.inviteeEmail = email
      · have := hall i hi he
        simp [inviteEligible, he, this]
      · simp [inviteEligible, he]
    simp [applyReferralReward, hnone]
  · intro inv hfind huni g1 g2
    set A := (applyReferralReward am st uid email now f1 f2).2 with hA
    have hnone : findOldestEligibleInvite A.invites email = none := by
      refine findOldestEligibleInvite_eq_none _ email ?_
      intro i' hi'
      rw [hA] at hi'
      simp only [applyReferralReward, hfind] at hi'
      rcases List.mem_map.mp hi' with ⟨j, hj, rfl⟩
      by_cases hje : j.inviteeEmail = email
      · have hid : j.id = inv.id := huni j hj hje
        simp [hid, inviteEligible]
      · by_cases hid : j.id = inv.id
        · simp [hid, inviteEligible, hje]
        · simp [hid, inviteEligible, hje]
    simp [applyReferralReward, hnone]

def rewardedInvW : ReferralInvite :=
  { id := 4, referrerUserId := 1, inviteeEmail := "inv@x.test",
    inviteeUserId := some 2, status := "REWARDED", createdAt := 5,
    rewardedAt := some 50 }

def rewardedStateW : RefState := { subs := [], invites := [rewardedInvW] }

/-- Witness for C6: with the invite already REWARDED, a further activation
applies no reward and leaves the state unchanged. -/
theorem applyReferralReward_at_most_once_witness :
    applyReferralReward amW rewardedStateW 2 "inv@x.test" 100 30 31
      = (none, rewardedStateW) :=
  (applyReferralReward_at_most_once amW rewardedStateW 2 "inv@x.test"
    100 30 31).2.2.1 (by decide)

/-! ## C4: PayPal activation for tier=business, cycle=monthly -/

/-- The row written by the upsert's update branch. -/
def upsertUpdatedRow (r : Subscription) (planName localStatus : String)
    (startedAt nextBillingAt : Int) : Subscription :=
  { r with
    plan := planName
    status := promoteStatus localStatus
    gateway := "PAYPAL"
    startedAt := startedAt
    nextBillingAt := some nextBillingAt
    expiresAt := nextBillingAt }

/-- The row written by the upsert's create branch. -/
def upsertCreatedRow (uid : Nat) (pid planName localStatus : String)
    (startedAt nextBillingAt : Int) (freshId : Nat) : Subscription :=
  { id := freshId
    userId := uid
    plan := planName
    status := promoteStatus localStatus
    gateway := "PAYPAL"
    gatewaySubscriptionId := some pid
    startedAt := startedAt
    nextBillingAt := some nextBillingAt
    expiresAt := nextBillingAt }

lemma activateTxn_find_none (rows : List Subscription) (uid : Nat) (pid : String)
    (planName localStatus : String) (startedAt nextBillingAt : Int) (freshId : Nat)
    (h : (rows.map (fun r =>
        if otherActiveFilter uid pid r then { r with status := "canceled" } else r)).find?
        (fun r => r.gatewaySubscriptionId = some pid) = none) :
    activateTxn rows uid pid planName localStatus startedAt nextBillingAt freshId =
      (rows.map (fun r =>
          if otherActiveFilter uid pid r then { r with status := "canceled" } else r)
        ++ [upsertCreatedRow uid pid planName localStatus startedAt nextBillingAt freshId],
       upsertCreatedRow uid pid planName localStatus startedAt nextBillingAt freshId) := by
  simp only [activateTxn, h]
  rfl

lemma activateTxn_find_some (rows : List Subscription) (uid : Nat) (pid : String)
    (planName localStatus : String) (startedAt nextBillingAt : Int) (freshId : Nat)
    (r0 : Subscription)
    (h : (rows.map (fun r =>
        if otherActiveFilter uid pid r then { r with status := "canceled" } else r)).find?
        (fun r => r.gatewaySubscriptionId = some pid) = some r0) :
    activateTxn rows uid pid planName localStatus startedAt nextBillingAt freshId =
      ((rows.map (fun r =>
          if otherActiveFilter uid pid r then { r with status := "canceled" } else r)).map
        (fun q => if q.gatewaySubscriptionId = some pid then
          upsertUpdatedRow r0 planName localStatus startedAt nextBillingAt else q),
       upsertUpdatedRow r0 planName localStatus startedAt nextBillingAt) := by
  simp only [activateTxn, h]
  rfl

/-- C4: activating PayPal with tier=business, cycle=monthly parses to the
plan name `business_monthly` (never `business_annual`); with live gateway
status ACTIVE the upserted row (keyed by its gateway subscription id) is
`active`; a gateway-pending status is promoted to active on write; and every
other currently-active row of the user carrying a different gateway
subscription id is set to `canceled` inside the same transaction. -/
theorem handleActivatePayPal_business_monthly :
    parsePlanInput "" "business" "monthly" = ("business", "monthly") ∧
    (parsePlanInput "" "business" "monthly").1 ++ "_"
        ++ (parsePlanInput "" "business" "monthly").2 = "business_monthly" ∧
    mapPayPalStatusToLocal "ACTIVE" = "active" ∧
    promoteStatus (mapPayPalStatusToLocal "APPROVAL_PENDING") = "active" ∧
    ∀ (rows : List Subscription) (uid : Nat) (pid : String)
      (startedAt nextBillingAt : Int) (freshId : Nat),
      (activateTxn rows uid pid "business_monthly" (mapPayPalStatusToLocal "ACTIVE")
          startedAt nextBillingAt freshId).2.status = "active" ∧
      (activateTxn rows uid pid "business_monthly" (mapPayPalStatusToLocal "ACTIVE")
          startedAt nextBillingAt freshId).2.plan = "business_monthly" ∧
      (activateTxn rows uid pid "business_monthly" (mapPayPalStatusToLocal "ACTIVE")
          startedAt nextBillingAt freshId).2.plan ≠ "business_annual" ∧
      (activateTxn rows uid pid "business_monthly" (mapPayPalStatusToLocal "ACTIVE")
          startedAt nextBillingAt freshId).2.gatewaySubscriptionId = some pid ∧
      (activateTxn rows uid pid "business_monthly" (mapPayPalStatusToLocal "ACTIVE")
          startedAt nextBillingAt freshId).2
        ∈ (activateTxn rows uid pid "business_monthly" (mapPayPalStatusToLocal "ACTIVE")
          startedAt nextBillingAt freshId).1 ∧
      (∀ q ∈ rows, q.userId = uid → q.status = "active" →
        ∀ g, q.gatewaySubscriptionId = some g → g ≠ pid →
          { q with status := "canceled" }
            ∈ (activateTxn rows uid pid "business_monthly"
                (mapPayPalStatusToLocal "ACTIVE") startedAt nextBillingAt freshId).1) := by
  have hls : mapPayPalStatusToLocal "ACTIVE" = "active" := by decide
  refine ⟨by decide, by decide, hls, by decide, ?_⟩
  intro rows uid pid startedAt nextBillingAt freshId
  rw [hls]
  have hcancel : ∀ q ∈ rows, q.userId = uid → q.status = "active" →
      ∀ g, q.gatewaySubscriptionId = some g → g ≠ pid →
      ({ q with status := "canceled" } ∈ rows.map (fun r =>
        if otherActiveFilter uid pid r then { r with status := "canceled" } else r) ∧
       ({ q with status := "canceled" } : Subscription).gatewaySubscriptionId
         = some g) := by
    intro q hq huid hact g hg hne
    have hfilter : otherActiveFilter uid pid q = true := by
      simp [otherActiveFilter, huid, hact, hg, hne]
    refine ⟨?_, hg⟩
    have heq : (fun r => if otherActiveFilter uid pid r then
        ({ r with status := "canceled" } : Subscription) else r) q
        = { q with status := "canceled" } := by simp [hfilter]
    rw [← heq]
    exact List.mem_map_of_mem _ hq
  rcases hfind : (rows.map (fun r =>
      if otherActiveFilter uid pid r then { r with status := "canceled" } else r)).find?
      (fun r => r.gatewaySubscriptionId = some pid) with _ | r0
  · rw [activateTxn_find_none rows uid pid "business_monthly" "active"
      startedAt nextBillingAt freshId hfind]
    refine ⟨?_, rfl, ?_, rfl, by simp, ?_⟩
    · show promoteStatus "active" = "active"
      decide
    · show ("business_monthly" : String) ≠ "business_annual"
      decide
    intro q hq huid hact g hg hne
    exact List.mem_append_left _ (hcancel q hq huid hact g hg hne).1
  · have hr0p : r0.gatewaySubscriptionId = some pid := by
      have := List.find?_some hfind
      simpa using this
    have hr0mem := List.mem_of_find?_eq_some hfind
    rw [activateTxn_find_some rows uid pid "business_monthly" "active"
      startedAt nextBillingAt freshId r0 hfind]
    refine ⟨?_, rfl, ?_, hr0p, ?_, ?_⟩
    · show promoteStatus "active" = "active"
      decide
    · show ("business_monthly" : String) ≠ "business_annual"
      decide
    · have heq : (fun q => if q.gatewaySubscriptionId = some pid then
          upsertUpdatedRow r0 "business_monthly" "active" startedAt nextBillingAt
          else q) r0
          = upsertUpdatedRow r0 "business_monthly" "active" startedAt nextBillingAt := by
        simp [hr0p]
      have hm := List.mem_map_of_mem (fun q =>
        if q.gatewaySubscriptionId = some pid then
          upsertUpdatedRow r0 "business_monthly" "active" startedAt nextBillingAt
        else q) hr0mem
      rw [heq] at hm
      exact hm
    · intro q hq huid hact g hg hne
      obtain ⟨hmem, hgid⟩ := hcancel q hq huid hact g hg hne
      have heq : (fun q => if q.gatewaySubscriptionId = some pid then
          upsertUpdatedRow r0 "business_monthly" "active" startedAt nextBillingAt
          else q) ({ q with status := "canceled" } : Subscription)
          = { q with status := "canceled" } := by
        have hneid : ({ q with status := "canceled" } : Subscription).gatewaySubscriptionId
            ≠ some pid := by
          rw [hgid]
          simp [hne]
        simp [hneid]
      have hm := List.mem_map_of_mem (fun q =>
        if q.gatewaySubscriptionId = some pid then
          upsertUpdatedRow r0 "business_monthly" "active" startedAt nextBillingAt
        else q) hmem
      rw [heq] at hm
      exact hm

def oldSubW : Subscription :=
  { id := 5, userId := 3, plan := "personal_monthly", status := "active",
    gateway := "PAYPAL", gatewaySubscriptionId := some "P-OLD", startedAt := 0,
    expiresAt := 1000, nextBillingAt := some 1000 }

/-- Witness for C4 at a concrete table: the upserted row is active and the
user's previously active PayPal row with a different gateway id is canceled. -/
theorem handleActivatePayPal_business_monthly_witness :
    (activateTxn [oldSubW] 3 "P-NEW" "business_monthly"
        (mapPayPalStatusToLocal "ACTIVE") 10 2000 6).2.status = "active" ∧
      { oldSubW with status := "canceled" }
        ∈ (activateTxn [oldSubW] 3 "P-NEW" "business_monthly"
            (mapPayPalStatusToLocal "ACTIVE") 10 2000 6).1 := by
  have h := handleActivatePayPal_business_monthly.2.2.2.2 [oldSubW] 3 "P-NEW" 10 2000 6
  exact ⟨h.1, h.2.2.2.2.2 oldSubW (by decide) (by decide) (by decide) "P-OLD"
    (by decide) (by decide)⟩

/-! ## C9: client-profile upsert lemmas -/

lemma find?_append_of_none {p : α → Bool} {l1 l2 : List α}
    (h : l1.find? p = none) : (l1 ++ l2).find? p = l2.find? p := by
  induction l1 with
  | nil => simp
  | cons x l ih =>
    simp only [List.find?_cons] at h ⊢
    rcases hx : p x with _ | _
    · rw [hx] at h
      simp only [List.cons_append, List.find?_cons, hx]
      exact ih h
    · rw [hx] at h
      simp at h

lemma filter_update_by_id_length (rows : List ClientProfile)
    (r updated : ClientProfile) (p : ClientProfile → Bool)
    (hmem : r ∈ rows) (hids : (rows.map (fun x => x.id)).Nodup)
    (hpu : p updated = true)
    (hpq : ∀ q ∈ rows, q.id ≠ r.id → p q = false) :
    ((rows.map (fun q => if q.id = r.id then updated else q)).filter p).length = 1 := by
  induction rows with
  | nil => simp at hmem
  | cons x rest ih =>
    simp only [List.map_cons, List.map_cons] at hids
    rw [List.nodup_cons] at hids
    by_cases hx : x.id = r.id
    · have hrestnone : ∀ q ∈ rest, q.id ≠ r.id := by
        intro q hq hqid
        exact hids.1 (List.mem_map.mpr ⟨q, hq, by rw [hqid, hx]⟩)
      have hrest : (rest.map (fun q => if q.id = r.id then updated else q)) = rest := by
        refine List.map_congr_left ?_ |>.trans (List.map_id rest)
        intro q hq
        simp [hrestnone q hq]
      simp only [List.map_cons, if_pos hx, hrest, List.filter_cons, hpu]
      have : rest.filter p = [] := by
        rw [List.filter_eq_nil_iff]
        intro q hq
        simp [hpq q (List.mem_cons_of_mem _ hq) (hrestnone q hq)]
      simp [this]
    · have hrmem : r ∈ rest := by
        rcases List.mem_cons.mp hmem with h | h
        · exact absurd (congrArg (fun z => z.id) h.symm) hx
        · exact h
      have hpx : p x = false := hpq x (List.mem_cons_self _ _) hx
      simp only [List.map_cons, if_neg hx, List.filter_cons, hpx]
      exact ih hrmem hids.2 (fun q hq => hpq q (List.mem_cons_of_mem _ hq))

/-- Row written by the client-profile email-reconciliation branch. -/
def cpEmailUpdatedRow (r : ClientProfile) (clientId clientName : String) :
    ClientProfile :=
  { r with
    clientId := clientId
    clientName := if clientName = "" then r.clientName else some clientName }

/-- Row written by the client-profile upsert's update branch. -/
def cpUpsertUpdatedRow (r : ClientProfile) (clientEmail clientName : String) :
    ClientProfile :=
  { r with
    clientEmail := clientEmail
    clientName := if clientName = "" then none else some clientName }

/-- Row written by the client-profile upsert's create branch. -/
def cpCreatedRow (uid : Nat) (clientId clientEmail clientName : String)
    (freshId : Nat) : ClientProfile :=
  { id := freshId
    userId := uid
    clientId := clientId
    clientEmail := clientEmail
    clientName := if clientName = "" then none else some clientName }

lemma cpUpsert_none (rows : List ClientProfile) (uid : Nat)
    (cid cem name : String) (fresh : Nat)
    (h : rows.find? (fun r => decide (r.userId = uid) && decide (r.clientId = cid))
      = none) :
    cpUpsert rows uid cid cem name fresh =
      (rows ++ [cpCreatedRow uid cid cem name fresh],
       cpCreatedRow uid cid cem name fresh) := by
  simp only [cpUpsert, h]
  rfl

lemma cpUpsert_some (rows : List ClientProfile) (uid : Nat)
    (cid cem name : String) (fresh : Nat) (r : ClientProfile)
    (h : rows.find? (fun r => decide (r.userId = uid) && decide (r.clientId = cid))
      = some r) :
    cpUpsert rows uid cid cem name fresh =
      (rows.map (fun q => if q.id = r.id then cpUpsertUpdatedRow r cem name else q),
       cpUpsertUpdatedRow r cem name) := by
  simp only [cpUpsert, h]
  rfl

lemma cpPostTxn_email_none (rows : List ClientProfile) (uid : Nat)
    (cid cem name : String) (fresh : Nat)
    (h : rows.find? (cpEmailMatch uid cem) = none) :
    cpPostTxn rows uid cid cem name fresh = cpUpsert rows uid cid cem name fresh := by
  simp only [cpPostTxn, h]

lemma cpPostTxn_email_same (rows : List ClientProfile) (uid : Nat)
    (cid cem name : String) (fresh : Nat) (r : ClientProfile)
    (h : rows.find? (cpEmailMatch uid cem) = some r) (hcid : r.clientId = cid) :
    cpPostTxn rows uid cid cem name fresh = cpUpsert rows uid cid cem name fresh := by
  simp only [cpPostTxn, h, hcid]
  rw [if_neg (by simp)]

lemma cpPostTxn_email_diff (rows : List ClientProfile) (uid : Nat)
    (cid cem name : String) (fresh : Nat) (r : ClientProfile)
    (h : rows.find? (cpEmailMatch uid cem) = some r) (hcid : r.clientId ≠ cid) :
    cpPostTxn rows uid cid cem name fresh =
      (rows.map (fun q => if q.id = r.id then cpEmailUpdatedRow r cid name else q),
       cpEmailUpdatedRow r cid name) := by
  simp only [cpPostTxn, h]
  rw [if_pos hcid]
  rfl

/-- The `(user, clientId)` row-count predicate used to state uniqueness. -/
def cpKeyPred (uid : Nat) (cid : String) (r : ClientProfile) : Bool :=
  decide (r.userId = uid) && decide (r.clientId = cid)

lemma cpKeyPred_false_of_not (uid : Nat) (cid : String) (q : ClientProfile)
    (h : ¬(q.userId = uid ∧ q.clientId = cid)) : cpKeyPred uid cid q = false := by
  by_cases hu : q.userId = uid
  · have hc : q.clientId ≠ cid := fun hc => h ⟨hu, hc⟩
    simp [cpKeyPred, hu, hc]
  · simp [cpKeyPred, hu]

/-- C9: (a) POSTing the same `(userEmail, clientId, clientEmail)` twice into a
table with no matching rows leaves exactly one row for that `(user,
clientId)`; (b) POSTing a new `clientId` whose `clientEmail` is already used
(case-insensitively) by one of the user's profiles updates that row's
clientId in place — same row count, the updated row present, exactly one
`(user, clientId)` row — and preserves the at-most-one-profile-per-
`(user, case-insensitive clientEmail)` invariant. -/
theorem clientProfilePost_upsert_dedup :
    ∀ (rows : List ClientProfile) (uid : Nat) (cid cem name : String) (f1 f2 : Nat),
      ((rows.map (fun x => x.id)).Nodup →
       (∀ r ∈ rows, cpEmailMatch uid cem r = false) →
       (∀ r ∈ rows, ¬(r.userId = uid ∧ r.clientId = cid)) →
       (∀ r ∈ rows, r.id ≠ f1) →
       ((cpPostTxn (cpPostTxn rows uid cid cem name f1).1 uid cid cem name f2).1.filter
          (cpKeyPred uid cid)).length = 1) ∧
      (∀ r : ClientProfile,
        (rows.map (fun x => x.id)).Nodup →
        rows.find? (cpEmailMatch uid cem) = some r →
        r.clientId ≠ cid →
        (∀ q ∈ rows, ¬(q.userId = uid ∧ q.clientId = cid)) →
        ((cpPostTxn rows uid cid cem name f1).1.length = rows.length ∧
         cpEmailUpdatedRow r cid name ∈ (cpPostTxn rows uid cid cem name f1).1 ∧
         ((cpPostTxn rows uid cid cem name f1).1.filter (cpKeyPred uid cid)).length = 1 ∧
         (rows.Pairwise (fun a b => a.userId = b.userId →
            asciiLower a.clientEmail ≠ asciiLower b.clientEmail) →
          (cpPostTxn rows uid cid cem name f1).1.Pairwise (fun a b =>
            a.userId = b.userId →
            asciiLower a.clientEmail ≠ asciiLower b.clientEmail)))) := by
  intro rows uid cid cem name f1 f2
  constructor
  · intro hids hnoe hnocid hfresh
    have hfe : rows.find? (cpEmailMatch uid cem) = none := by
      rw [List.find?_eq_none]
      intro r hr
      simp [hnoe r hr]
    have hfc : rows.find? (fun r => decide (r.userId = uid)
        && decide (r.clientId = cid)) = none := by
      rw [List.find?_eq_none]
      intro r hr hcontra
      rw [Bool.and_eq_true, decide_eq_true_eq, decide_eq_true_eq] at hcontra
      exact hnocid r hr hcontra
    have hstep1 : (cpPostTxn rows uid cid cem name f1).1
        = rows ++ [cpCreatedRow uid cid cem name f1] := by
      rw [cpPostTxn_email_none _ _ _ _ _ _ hfe, cpUpsert_none _ _ _ _ _ _ hfc]
    rw [hstep1]
    have hpc : cpEmailMatch uid cem (cpCreatedRow uid cid cem name f1) = true := by
      simp [cpEmailMatch, cpCreatedRow]
    have hfe2 : (rows ++ [cpCreatedRow uid cid cem name f1]).find?
        (cpEmailMatch uid cem) = some (cpCreatedRow uid cid cem name f1) := by
      rw [find?_append_of_none hfe]
      exact List.find?_cons_of_pos _ hpc
    have hpcid : (fun r => decide (r.userId = uid) && decide (r.clientId = cid))
        (cpCreatedRow uid cid cem name f1) = true := by
      simp [cpCreatedRow]
    have hfc2 : (rows ++ [cpCreatedRow uid cid cem name f1]).find?
        (fun r => decide (r.userId = uid) && decide (r.clientId = cid))
        = some (cpCreatedRow uid cid cem name f1) := by
      rw [find?_append_of_none hfc]
      exact List.find?_cons_of_pos _ hpcid
    rw [cpPostTxn_email_same (rows ++ [cpCreatedRow uid cid cem name f1]) uid cid cem
        name f2 (cpCreatedRow uid cid cem name f1) hfe2 rfl,
      cpUpsert_some _ _ _ _ _ _ _ hfc2]
    refine filter_update_by_id_length _ _ _ _ ?_ ?_ ?_ ?_
    · exact List.mem_append_right _ (List.mem_singleton.mpr rfl)
    · rw [List.map_append]
      refine List.Nodup.append hids (List.nodup_singleton _) ?_
      intro a ha hb
      simp only [List.map_cons, List.map_nil, List.mem_singleton] at hb
      subst hb
      rcases List.mem_map.mp ha with ⟨q, hq, hqid⟩
      exact hfresh q hq hqid
    · simp [cpKeyPred, cpUpsertUpdatedRow, cpCreatedRow]
    · intro q hq hqid
      rcases List.mem_append.mp hq with h | h
      · exact cpKeyPred_false_of_not _ _ _ (hnocid q h)
      · rw [List.mem_singleton] at h
        subst h
        exact absurd rfl hqid
  · intro r hids hfind hrne hnocid
    have hrmem := List.mem_of_find?_eq_some hfind
    have hrmatch := List.find?_some hfind
    have hruid : r.userId = uid := by
      simp [cpEmailMatch] at hrmatch
      exact hrmatch.1
    rw [cpPostTxn_email_diff _ _ _ _ _ _ _ hfind hrne]
    refine ⟨by simp, ?_, ?_, ?_⟩
    · have heq2 : (fun q => if q.id = r.id then cpEmailUpdatedRow r cid name else q) r
          = cpEmailUpdatedRow r cid name := by simp
      have hm := List.mem_map_of_mem (fun q =>
        if q.id = r.id then cpEmailUpdatedRow r cid name else q) hrmem
      rw [heq2] at hm
      exact hm
    · refine filter_update_by_id_length _ _ _ _ hrmem hids ?_ ?_
      · simp [cpKeyPred, cpEmailUpdatedRow, hruid]
      · intro q hq _
        exact cpKeyPred_false_of_not _ _ _ (hnocid q hq)
    · intro hpw
      rw [List.pairwise_map]
      have hpres : ∀ x ∈ rows,
          ((fun q => if q.id = r.id then cpEmailUpdatedRow r cid name else q) x).userId
            = x.userId ∧
          ((fun q => if q.id = r.id then cpEmailUpdatedRow r cid name else q) x).clientEmail
            = x.clientEmail := by
        intro x hx
        by_cases hxid : x.id = r.id
        · have hxr : x = r :=
            List.inj_on_of_nodup_map hids hx hrmem hxid
          subst hxr
          simp [cpEmailUpdatedRow]
        · simp [hxid]
      refine List.Pairwise.imp_of_mem ?_ hpw
      intro a b ha hb hab h1
      have hpa := hpres a ha
      have hpb := hpres b hb
      rw [hpa.2, hpb.2]
      exact hab (by rw [← hpa.1, ← hpb.1]; exact h1)

def profW : ClientProfile :=
  { id := 1, userId := 1, clientId := "OLD", clientEmail := "C@x.test",
    clientName := none }

/-- Witness for C9: double-post into an empty table yields exactly one
`(user, clientId)` row, and posting a new clientId with an already-used
(case-insensitively matched) client email updates the matched row in
place. -/
theorem clientProfilePost_upsert_dedup_witness :
    ((cpPostTxn (cpPostTxn [] 1 "C1" "c@x.test" "Bob" 10).1
        1 "C1" "c@x.test" "Bob" 11).1.filter (cpKeyPred 1 "C1")).length = 1 ∧
      cpEmailUpdatedRow profW "C1" "Bob"
        ∈ (cpPostTxn [profW] 1 "C1" "c@x.test" "Bob" 12).1 := by
  refine ⟨(clientProfilePost_upsert_dedup [] 1 "C1" "c@x.test" "Bob" 10 11).1
    (by decide) (by decide) (by decide) (by decide), ?_⟩
  exact ((clientProfilePost_upsert_dedup [profW] 1 "C1" "c@x.test" "Bob" 12 13).2 profW
    (by decide) (by decide) (by decide) (by decide)).2.1
